import Mathlib

/-!
# RCEP-Protocol: verification of the message-capture and snapshot pipeline

A shallow embedding of the message reconciliation, adapter extraction and
snapshot generation code of the RCEP browser extension, together with proofs
about the spec claims.  JavaScript strings are modelled as Lean `String`
(lists of characters); JavaScript objects become structures with `Option`
fields for properties that may be absent; in-place mutation becomes explicit
state passing.  The file is organised as definitions first, theorems second.
-/

set_option maxRecDepth 20000

namespace JsStr

/-- Model of the JavaScript `\s` character class (ECMA-262 WhiteSpace and
LineTerminator code points). -/
def jsIsWs (c : Char) : Bool :=
  c == ' ' || c == '\t' || c == '\n' || c == '\r' ||
  c.val == 0x0b || c.val == 0x0c || c.val == 0xa0 || c.val == 0x1680 ||
  (0x2000 ≤ c.val && c.val ≤ 0x200a) ||
  c.val == 0x2028 || c.val == 0x2029 || c.val == 0x202f ||
  c.val == 0x205f || c.val == 0x3000 || c.val == 0xfeff

/-- `String.prototype.toLowerCase` restricted to the alphabets this program
manipulates: ASCII letters and the Latin-1 uppercase range `À`–`Þ`
(both map by adding 32 to the code point; `×` 0xD7 has no lowercase). -/
def jsToLowerChar (c : Char) : Char :=
  if 'A' ≤ c ∧ c ≤ 'Z' then Char.ofNat (c.toNat + 32)
  else if 0xc0 ≤ c.val ∧ c.val ≤ 0xde ∧ c.val ≠ 0xd7 then Char.ofNat (c.toNat + 32)
  else c

/-- `replace(/\s+/g, ' ')` on a character list: every maximal whitespace run
becomes a single space.  The boolean argument records whether the previous
character was part of a whitespace run. -/
def wsCollapseGo : List Char → Bool → List Char
  | [], _ => []
  | c :: rest, prevWs =>
    if jsIsWs c then
      if prevWs then wsCollapseGo rest true else ' ' :: wsCollapseGo rest true
    else c :: wsCollapseGo rest false

def wsCollapse (l : List Char) : List Char := wsCollapseGo l false

def trimLeftChars (l : List Char) : List Char := l.dropWhile jsIsWs

def trimRightChars (l : List Char) : List Char := (l.reverse.dropWhile jsIsWs).reverse

/-- `String.prototype.trim`. -/
def trimChars (l : List Char) : List Char := trimRightChars (trimLeftChars l)

/-- `trim()` at the `String` level. -/
def jsTrim (s : String) : String := String.mk (trimChars s.data)

/-- `a.startsWith(b)` (JS semantics: `b` a literal prefix of `a`). -/
def jsStartsWith (a b : String) : Bool := b.data.isPrefixOf a.data

/-- `content.replace(/\s+/g, ' ').trim().toLowerCase()` — the normalization
step shared by both dedup signature functions. -/
def normalizeSig (content : String) : String :=
  String.mk ((trimChars (wsCollapse content.data)).map jsToLowerChar)

end JsStr

namespace ContentJs

/-- `signature` from `content.js`: `role|` followed by the first 300
characters of the normalized content (a prefix-only signature). -/
def signature (role content : String) : String :=
  let c := JsStr.normalizeSig content
  (if role = "" then "unknown" else role) ++ "|" ++ String.mk (c.data.take 300)

/-- A stored message record (`{id, role, content, timestamp, session_id,
captured_at}` as created by `scanAndSyncMessages`). -/
structure StoredMsg where
  id : String
  role : String
  content : String
  timestamp : String
  session_id : String
  captured_at : Nat
deriving DecidableEq

/-- A candidate message parsed from the page (`{role, content}`). -/
structure Candidate where
  role : String
  content : String
deriving DecidableEq

/-- `tryUpdateLastStreaming`: if the last stored message has the same role
and one trimmed content is a prefix of the other, update the last message in
place (returns the updated list); otherwise report no update (`none`). -/
def tryUpdateLastStreaming (existing : List StoredMsg) (incoming : Candidate)
    (nowMs : Nat) : Option (List StoredMsg) :=
  match existing.getLast? with
  | none => none
  | some last =>
    if incoming.role = "" then none
    else if last.role ≠ incoming.role then none
    else
      let prev := JsStr.jsTrim last.content
      let next := JsStr.jsTrim incoming.content
      if prev = "" ∨ next = "" then none
      else if JsStr.jsStartsWith next prev || JsStr.jsStartsWith prev next then
        some (existing.dropLast ++ [{ last with content := next, captured_at := nowMs }])
      else none

/-- Dedup signatures of a stored list, in order. -/
def sigsOf (l : List StoredMsg) : List String :=
  l.map (fun m => signature m.role m.content)

/-- The invariant claimed by the spec: no two stored messages share a dedup
signature. -/
def NoDupSigs (l : List StoredMsg) : Prop := (sigsOf l).Nodup

instance (l : List StoredMsg) : Decidable (NoDupSigs l) :=
  inferInstanceAs (Decidable ((sigsOf l).Nodup))

/-- One candidate of the append-mode branch of `scanAndSyncMessages`:
try a streaming update first, then append unless the signature was seen. -/
def appendScanStep (sessionId nowIso : String) (nowMs : Nat)
    (st : List StoredMsg × List String) (p : Candidate) :
    List StoredMsg × List String :=
  match tryUpdateLastStreaming st.1 p nowMs with
  | some next' => (next', st.2)
  | none =>
    let sig := signature p.role p.content
    if sig ∈ st.2 then st
    else
      (st.1 ++ [{ id := "msg-" ++ toString (st.1.length + 1), role := p.role,
                  content := p.content, timestamp := nowIso,
                  session_id := sessionId, captured_at := nowMs }],
       st.2 ++ [sig])

/-- The append-mode branch of `scanAndSyncMessages` (content.js 1236-1258):
seed the seen-set with the signatures of the existing messages, then process
each parsed candidate. -/
def appendScan (existing : List StoredMsg) (parsed : List Candidate)
    (sessionId nowIso : String) (nowMs : Nat) : List StoredMsg :=
  (parsed.foldl (appendScanStep sessionId nowIso nowMs) (existing, sigsOf existing)).1

/-- Whether the fold of `appendScan` performs no in-place streaming update
on the given inputs (runs the same fold and checks every step). -/
def appendScanUpdateFree (sessionId nowIso : String) (nowMs : Nat) :
    List StoredMsg × List String → List Candidate → Bool
  | _, [] => true
  | st, p :: rest =>
    match tryUpdateLastStreaming st.1 p nowMs with
    | some _ => false
    | none => appendScanUpdateFree sessionId nowIso nowMs
        (appendScanStep sessionId nowIso nowMs st p) rest

/-- One `push` of the share-page API+DOM merge (content.js 1773-1792):
skip entries with empty role/content, then dedup by signature. -/
def mergePush (st : List StoredMsg × List String) (m : StoredMsg) :
    List StoredMsg × List String :=
  if m.role = "" ∨ m.content = "" then st
  else
    let sig := signature m.role m.content
    if sig ∈ st.2 then st else (st.1 ++ [m], st.2 ++ [sig])

/-- `merged.map((m, idx) => ({...m, id: msg-(idx+1), session_id}))`,
with the running index made explicit. -/
def reindexFrom (sessionId : String) (k : Nat) : List StoredMsg → List StoredMsg
  | [] => []
  | m :: rest =>
    { m with id := "msg-" ++ toString (k + 1), session_id := sessionId } ::
      reindexFrom sessionId (k + 1) rest

/-- The share-page API+DOM merge: push all API-cache messages, then all
DOM messages, dedup by signature, and reassign sequential ids. -/
def mergeApiDom (api dom : List StoredMsg) (sessionId : String) : List StoredMsg :=
  reindexFrom sessionId 0 (((api ++ dom).foldl mergePush ([], [])).1)

end ContentJs

namespace Background

/-- Normalized head used by the part_003 signature (`c.slice(0, 220)`). -/
def sigHead (c : String) : String := String.mk (c.data.take 220)

/-- Normalized tail used by the part_003 signature
(`len > 220 ? c.slice(Math.max(0, len - 220)) : ''`). -/
def sigTail (c : String) : String :=
  if c.data.length > 220 then String.mk (c.data.drop (c.data.length - 220)) else ""

/-- `signature` from the background/content pipeline (part_003):
`role|length|head(220)|tail(220)` of the normalized content. -/
def signature (role content : String) : String :=
  let c := JsStr.normalizeSig content
  (if role = "" then "unknown" else role) ++ "|" ++ toString c.data.length ++ "|" ++
    sigHead c ++ "|" ++ sigTail c

/-- The final message-source pick of `runSnapshotJob` (part_003 line 477):
`apiMsgs.length >= domMsgs.length ? apiMsgs : domMsgs`.  The same expression
appears in the `getMessages` handler of content.js (line 2019). -/
def pickBestMessages (apiMsgs domMsgs : List ContentJs.StoredMsg) :
    List ContentJs.StoredMsg :=
  if apiMsgs.length ≥ domMsgs.length then apiMsgs else domMsgs

/-- The mutable per-tab state touched by the `startSnapshotJob` handler.
`progress` records the polled progress record's capture id and phase. -/
structure JobState where
  snapshotJobRunning : Bool
  captureIdActive : Option String
  jobTabId : Option Nat
  chatgptChunkSeen : List String
  jobStrategy : Option String
  progress : Option (String × String)
deriving DecidableEq

/-- Response shape of the `startSnapshotJob` handler. -/
structure StartResponse where
  ok : Bool
  errorCode : Option String
  started : Bool
  captureId : Option String
deriving DecidableEq

/-- The `startSnapshotJob` message handler (part_003 lines 3239-3268).
Returns the new state, the synchronous response, and whether
`runSnapshotJob` was launched. -/
def handleStartSnapshotJob (st : JobState) (requestCaptureId : Option String)
    (senderTab : Option Nat) (nowMs : Nat) : JobState × StartResponse × Bool :=
  let cap : String :=
    match requestCaptureId with
    | some s => if JsStr.jsTrim s ≠ "" then JsStr.jsTrim s else "cap-" ++ toString nowMs
    | none => "cap-" ++ toString nowMs
  if st.snapshotJobRunning then
    (st, { ok := false, errorCode := some "JOB_ALREADY_RUNNING",
           started := false, captureId := none }, false)
  else
    ({ st with captureIdActive := some cap, chatgptChunkSeen := [],
               jobTabId := senderTab, jobStrategy := none,
               progress := some (cap, "starting") },
     { ok := true, errorCode := none, started := true, captureId := some cap },
     true)

end Background

namespace PageContext

/-- One element of a ChatGPT `content.parts` array: either a plain string or
an object with optional `text` / `type` / `content` string properties. -/
inductive CgptPart where
  | str (s : String)
  | obj (text : Option String) (ptype : Option String) (content : Option String)
deriving DecidableEq

/-- `normalizePartText` (part_004): a string part is returned as is; for an
object part, `text` wins, then `content`, else the empty string. -/
def normalizePartText : CgptPart → String
  | .str s => s
  | .obj text _ content =>
    match text with
    | some t => t
    | none =>
      match content with
      | some c => c
      | none => ""

/-- A ChatGPT message `content` object. -/
structure CgptContent where
  content_type : Option String
  parts : Option (List CgptPart)
deriving DecidableEq

/-- The message `metadata` object (only the flag the code reads). -/
structure CgptMeta where
  is_visually_hidden_from_conversation : Bool
deriving DecidableEq

/-- A ChatGPT message node payload (`author.role`, `content`, `metadata`,
`create_time`; `create_time` is a numeric epoch value). -/
structure CgptMessage where
  author_role : Option String
  content : Option CgptContent
  metadata : Option CgptMeta
  create_time : Option Int
deriving DecidableEq

/-- A node of the `mapping` graph: `{parent, message}`. -/
structure CgptNode where
  parent : Option String
  message : Option CgptMessage
deriving DecidableEq

/-- A provider conversation payload: `{mapping, current_node, currentNode}`.
`mapping` is an object keyed by node id, modelled as an association list. -/
structure CgptConv where
  mapping : Option (List (String × CgptNode))
  current_node : Option String
  currentNode : Option String
deriving DecidableEq

/-- `mapping[id]`. -/
def lookupNode (m : List (String × CgptNode)) (id : String) : Option CgptNode :=
  (m.find? (fun kv => kv.1 == id)).map (·.2)

/-- `mapping[id].parent` as read by the walk. -/
def parentOf (m : List (String × CgptNode)) (id : String) : Option String :=
  (lookupNode m id).bind (·.parent)

/-- `MAX_CHATGPT_MSG_CHARS` (part_004). -/
def MAX_CHATGPT_MSG_CHARS : Nat := 30000

/-- Per-message truncation with marker. -/
def truncateMsg (t : String) : String :=
  if t.data.length > MAX_CHATGPT_MSG_CHARS then
    String.mk (t.data.take MAX_CHATGPT_MSG_CHARS) ++ "\n[RL4_TRUNCATED_MESSAGE]"
  else t

/-- An extracted `{role, content, timestamp}` message. -/
structure ExtractedMsg where
  role : String
  content : String
  timestamp : Option Int
deriving DecidableEq

/-- The per-node body of the extraction loop: skip nodes without a message,
with a role other than user/assistant, with `user_editable_context` content,
hidden messages and empty joined text; otherwise emit the (truncated)
joined parts text. -/
def renderNode (node : CgptNode) : Option ExtractedMsg :=
  match node.message with
  | none => none
  | some msg =>
    if msg.author_role = some "user" ∨ msg.author_role = some "assistant" then
      let ctype :=
        match msg.content with
        | some c => c.content_type.getD ""
        | none => ""
      if ctype = "user_editable_context" then none
      else if (match msg.metadata with
               | some md => md.is_visually_hidden_from_conversation
               | none => false) then none
      else
        let text :=
          match msg.content with
          | some c =>
            match c.parts with
            | some ps =>
              JsStr.jsTrim
                (String.intercalate "\n" ((ps.map normalizePartText).filter (· ≠ "")))
            | none => ""
          | none => ""
        if text = "" then none
        else some { role := msg.author_role.getD "", content := truncateMsg text,
                    timestamp := msg.create_time }
    else none

/-- The parent-pointer walk of `extractChatGPTConversationMessages`: starting
from `current_node`, follow `parent` links, guarding against revisits and
bounding the chain to 100 000 ids.  `acc` is the chain built so far (which
is also the guard set). -/
def chainGo (m : List (String × CgptNode)) (acc : List String) (cur : Option String) :
    List String :=
  match cur with
  | none => acc
  | some c =>
    if _h : c ≠ "" ∧ (lookupNode m c).isSome ∧ c ∉ acc ∧ acc.length < 100000 then
      chainGo m (acc ++ [c]) (parentOf m c)
    else acc
termination_by 100000 - acc.length
decreasing_by simp only [List.length_append, List.length_cons, List.length_nil]; omega

/-- `extractChatGPTConversationMessages` (part_004 lines 112-165). -/
def extractChatGPTConversationMessages (json : CgptConv) : List ExtractedMsg :=
  match json.mapping with
  | none => []
  | some mapping =>
    let fallbackCn : String :=
      match json.currentNode with
      | some t => if t ≠ "" then t else ""
      | none => ""
    let currentNode : String :=
      match json.current_node with
      | some s => if s ≠ "" then s else fallbackCn
      | none => fallbackCn
    let chainIds : List String :=
      if currentNode ≠ "" ∧ (lookupNode mapping currentNode).isSome then
        (chainGo mapping [] (some currentNode)).reverse
      else []
    let idsToUse := if chainIds ≠ [] then chainIds else mapping.map (·.1)
    idsToUse.filterMap (fun id => (lookupNode mapping id).bind renderNode)

/-- Boolean form of the walk-termination test: a node is a "root" when its
parent link is absent, empty, or not a key of the mapping. -/
def rootExitB (m : List (String × CgptNode)) (id : String) : Bool :=
  match parentOf m id with
  | none => true
  | some q => q == "" || (lookupNode m q).isNone

/-- The walk stops at a node exactly when its parent link is absent, empty,
or not a key of the mapping (the spec's "root"). -/
def RootExit (m : List (String × CgptNode)) (id : String) : Prop :=
  rootExitB m id = true

instance (m : List (String × CgptNode)) (id : String) : Decidable (RootExit m id) :=
  inferInstanceAs (Decidable (rootExitB m id = true))

instance pathRelDec (m : List (String × CgptNode)) :
    DecidableRel (fun a b : String => parentOf m b = some a) :=
  fun a b => inferInstanceAs (Decidable (parentOf m b = some a))

/-- Modelled from the spec: `p` is THE root-to-current_node path of the
conversation graph — nonempty, ending at `current`, each node's `parent`
link pointing at its predecessor, starting at a root (no usable parent),
acyclic and within the 100 000-hop bound, with every id a nonempty key of
the mapping. -/
def IsRootToCurrentPath (m : List (String × CgptNode)) (current : String)
    (p : List String) : Prop :=
  p ≠ [] ∧
  p.getLast? = some current ∧
  List.Chain' (fun a b => parentOf m b = some a) p ∧
  RootExit m p.headI ∧
  (∀ x ∈ p, x ≠ "" ∧ (lookupNode m x).isSome) ∧
  p.Nodup ∧
  p.length ≤ 100000

instance (m : List (String × CgptNode)) (current : String) (p : List String) :
    Decidable (IsRootToCurrentPath m current p) :=
  inferInstanceAs (Decidable (p ≠ [] ∧
    p.getLast? = some current ∧
    List.Chain' (fun a b => parentOf m b = some a) p ∧
    RootExit m p.headI ∧
    (∀ x ∈ p, x ≠ "" ∧ (lookupNode m x).isSome) ∧
    p.Nodup ∧
    p.length ≤ 100000))

/-- The concrete branched conversation graph used as the C1 witness input:
root `A` (user, `hi`) with sibling children `B` and `C`. -/
def convCexMapping : List (String × CgptNode) :=
  [("A", ⟨none, some ⟨some "user", some ⟨none, some [.str "hi"]⟩, none, some 1⟩⟩),
   ("B", ⟨some "A", some ⟨some "assistant", some ⟨none, some [.str "branch b"]⟩, none, some 2⟩⟩),
   ("C", ⟨some "A", some ⟨some "assistant", some ⟨none, some [.str "branch c"]⟩, none, some 3⟩⟩)]

end PageContext

namespace Gen

/-- A topic record (`{label, weight, message_refs, summary}`). -/
structure Topic where
  label : String
  weight : Int
  message_refs : List String
  summary : String
deriving DecidableEq

/-- A decision record (the fields the generator reads). -/
structure Decision where
  id : String
  intent : String
  intent_text : String
  chosen_option : String
  confidence_llm : Int
deriving DecidableEq

/-- A pruned decision as emitted by the Ultra tiers
(`{id, intent, choice, choice_sha256, rationale}`). -/
structure UltraDecision where
  id : String
  intent : String
  choice : String
  choice_sha256 : String
  rationale : String
deriving DecidableEq

/-- Generator options (`{includeTranscript, outputMode}`); `none` models an
absent `includeTranscript` property. -/
structure GenOptions where
  includeTranscript : Option Bool
  outputMode : String
  wantsIntegritySeal : Bool
deriving DecidableEq

/-- Extraction budget (`{maxTopics, maxDecisions, maxInsights}`); the
deadline itself is modelled by the `clock` oracle passed to `generate`. -/
structure Budget where
  maxTopics : Nat
  maxDecisions : Nat
  maxInsights : Nat
deriving DecidableEq

/-- `runSnapshotJob` passes `{}`, so every budget field takes its default. -/
def defaultBudget : Budget := ⟨7, 5, 10⟩

/-- The produced artifact, as one structure covering the digest, ultra and
partial shapes; `none` in an `Option` field models an absent JSON property. -/
structure Snapshot where
  protocol : Option String
  version : Option String
  session_id : String
  timestamp : String
  partial_flag : Option Bool
  partial_reason : Option String
  topics : List Topic
  decisions : Option (List Decision)
  ultra_decisions : Option (List UltraDecision)
  insights : Option (List String)
  context_summary : Option String
  timeline_macro : Option String
  cognitive_spine : Option String
  portable_memory : Option String
  semantic_hints : Option String
  transcript_compact : Option String
  transcript_format : Option String
  messages : Option (List ContentJs.StoredMsg)
  conversation_fingerprint : Option String
  metadata_messages : Option Nat
  checksum : String
  signature_blob : Option String
deriving DecidableEq

/-- The environment of the generator: the external globals it calls
(`extractTopics`, `extractDecisions`, `extractInsights`, `calculateChecksum`
via `canonicalize`, WebCrypto SHA-256) and the derived-content helper
methods whose outputs the claims quantify over (timeline, spine, portable
memory, semantic hints, excerpts — several involve Unicode property regexes
and hashing that have no shallow embedding), plus the capture-time context
(`new Date().toISOString()`, `Date.now().toString(16)`). -/
structure ExtractorEnv where
  extractTopics : List ContentJs.StoredMsg → List Topic
  extractDecisions : List ContentJs.StoredMsg → List Decision
  extractInsights : List ContentJs.StoredMsg → List String
  sha256Hex : String → String
  checksum : Snapshot → String
  signChecksum : String → String
  timelineMacro : List ContentJs.StoredMsg → Nat → String
  cognitiveSpine : List ContentJs.StoredMsg → List Topic → List Decision →
    List String → String → String
  portableMemory : List ContentJs.StoredMsg → List Topic → List Decision →
    String → String → String
  semanticHintsOf : List Topic → List UltraDecision → List Decision → String →
    List ContentJs.StoredMsg → String
  excerpt : String → Nat → String
  nowIso : String
  nowMsHex : String

/-- The session-id prefix match (regex `conv` dash, lazy group, dash):
the nonempty group between the `conv-` prefix and the next dash. -/
def convPrefixMatch (s : String) : Option String :=
  if JsStr.jsStartsWith s "conv-" then
    let rest := (s.data.drop 5)
    match rest with
    | [] => none
    | _ :: t =>
      match t.findIdx? (fun c => c == '-') with
      | some i => some (String.mk (rest.take (i + 1)))
      | none => none
  else none

/-- `_pickSessionId`: prefer a non-`conv-unknown-` session id from the
messages; else rebuild from the first id's `conv-<part>-` prefix; else a
fresh hash-based id. -/
def pickSessionId (env : ExtractorEnv) (messages : List ContentJs.StoredMsg)
    (nowIso : String) : String :=
  match messages.find? (fun m =>
      !(m.session_id == "") && !(JsStr.jsStartsWith m.session_id "conv-unknown-")) with
  | some m => m.session_id
  | none =>
    let fallback := "conv-hash-" ++ env.nowMsHex ++ "-" ++ nowIso
    match messages.find? (fun m => !(m.session_id == "")) with
    | some m =>
      match convPrefixMatch m.session_id with
      | some m1 => if m1 ≠ "" ∧ m1 ≠ "unknown" then "conv-" ++ m1 ++ "-" ++ nowIso
                   else fallback
      | none => fallback
    | none => fallback

/-- Case-insensitive literal substring test (a JS `/.../i` regex without
special characters). -/
def isInfixChars (needle : List Char) : List Char → Bool
  | [] => needle.isEmpty
  | c :: t => needle.isPrefixOf (c :: t) || isInfixChars needle t

def containsCi (hay needle : String) : Bool :=
  isInfixChars (needle.data.map JsStr.jsToLowerChar) (hay.data.map JsStr.jsToLowerChar)

/-- The repetitive provider system messages filtered by
`_deduplicateMessages`. -/
def systemPatternHit (content : String) : Bool :=
  containsCi content "Pour ex\xe9cuter du code, activez l\x27ex\xe9cution" ||
  containsCi content "Pour ex\xe9cuter du code, activez" ||
  containsCi content "activez l\x27ex\xe9cution de code" ||
  containsCi content "Param\xe8tres > Capacit\xe9s"

/-- Replace the value stored under a key in an insertion-ordered map. -/
def setAssoc (seen : List (String × String)) (key val : String) :
    List (String × String) :=
  seen.map (fun kv => if kv.1 == key then (key, val) else kv)

/-- The loop body of `_deduplicateMessages`. -/
def dedupMessagesGo (referencedIds : List String) :
    List (String × String) → List ContentJs.StoredMsg → List ContentJs.StoredMsg →
    List ContentJs.StoredMsg
  | _, unique, [] => unique
  | seen, unique, msg :: rest =>
    let content := JsStr.jsTrim msg.content
    if content = "" then dedupMessagesGo referencedIds seen unique rest
    else if systemPatternHit content then dedupMessagesGo referencedIds seen unique rest
    else
      let contentKey := String.mk ((content.data.map JsStr.jsToLowerChar).take 200)
      match seen.find? (fun kv => kv.1 == contentKey) with
      | some kv =>
        if msg.id ∈ referencedIds then
          match unique.findIdx? (fun m => kv.2 == m.id) with
          | some i =>
            dedupMessagesGo referencedIds (setAssoc seen contentKey msg.id)
              (unique.eraseIdx i ++ [msg]) rest
          | none => dedupMessagesGo referencedIds seen unique rest
        else dedupMessagesGo referencedIds seen unique rest
      | none =>
        dedupMessagesGo referencedIds (seen ++ [(contentKey, msg.id)])
          (unique ++ [msg]) rest

/-- `_deduplicateMessages`: drop empty/system messages and content-key
duplicates, preferring topic-referenced copies. -/
def dedupMessages (messages : List ContentJs.StoredMsg) (topics : List Topic) :
    List ContentJs.StoredMsg :=
  let referencedIds := topics.foldl (fun acc t => acc ++ t.message_refs) []
  dedupMessagesGo referencedIds [] [] messages

/-- `_encodeMessagesCompact`: `ROLE:\ncontent` blocks joined by the
`<|RL4_MSG|>` separator, skipping empty contents. -/
def encodeMessagesCompact (messages : List ContentJs.StoredMsg) : String :=
  String.intercalate "\n\n<|RL4_MSG|>\n\n"
    (messages.filterMap (fun m =>
      let role := if m.role == "user" then "USER" else "ASSISTANT"
      let content := JsStr.jsTrim m.content
      if content = "" then none else some (role ++ ":\n" ++ content)))

/-- `generateSummary`: message count plus top topic labels and decision
intents, capped at 200 characters. -/
def generateSummary (messages : List ContentJs.StoredMsg) (topics : List Topic)
    (decisions : List Decision) : String :=
  let topTopics := String.intercalate ", " ((topics.take 3).map (·.label))
  let keyDecisions := String.intercalate ", " ((decisions.take 2).map (·.intent))
  let summary := toString messages.length ++ " messages. Topics: " ++
    (if topTopics = "" then "none" else topTopics) ++ ". Decisions: " ++
    (if keyDecisions = "" then "none" else keyDecisions) ++ "."
  if summary.data.length > 200 then String.mk (summary.data.take 197) ++ "..." else summary

/-- The data a partial return carries (`generate` passes `{}`, `{topics}`
or `{topics, decisions}`). -/
structure PartialData where
  topics : Option (List Topic)
  decisions : Option (List Decision)
deriving DecidableEq

/-- `generatePartialSnapshot`: the always-available fallback artifact with
`partial:true`, the reason, whatever stages completed, and the raw messages
(normalized to the chosen session id). -/
def generatePartialSnapshot (env : ExtractorEnv) (messages : List ContentJs.StoredMsg)
    (reason : String) (pd : PartialData) : Snapshot :=
  let nowIso := env.nowIso
  let sessionId := pickSessionId env messages nowIso
  { protocol := none
    version := some "0.1.0"
    session_id := sessionId
    timestamp := nowIso
    partial_flag := some true
    partial_reason := some reason
    topics := pd.topics.getD []
    decisions := some (pd.decisions.getD [])
    ultra_decisions := none
    insights := some []
    context_summary := some ""
    timeline_macro := none
    cognitive_spine := none
    portable_memory := none
    semantic_hints := none
    transcript_compact := none
    transcript_format := none
    messages := some (messages.map (fun m => { m with session_id := sessionId }))
    conversation_fingerprint := none
    metadata_messages := some messages.length
    checksum := ""
    signature_blob := none }

/-- `_buildUltraSnapshot`: no transcript or messages arrays; only
high-weight topics (> 700) and high-confidence / critical-intent decisions,
each choice excerpted plus hashed. -/
def buildUltraSnapshot (env : ExtractorEnv) (digest : Snapshot) (transcriptSha256 : String)
    (msgs : List ContentJs.StoredMsg) (semanticHints : Bool)
    (decisionChoiceSha : List (String × String)) : Snapshot :=
  let prunedTopics := (digest.topics.filter (fun t => t.weight > 700)).map
    (fun t => { t with message_refs := [] })
  let rawDecisions := digest.decisions.getD []
  let prunedDecisions := (rawDecisions.filter (fun d =>
      d.confidence_llm > 80 ∨ d.intent = "decide" ∨ d.intent = "recommend")).map
    (fun d =>
      { id := d.id, intent := d.intent,
        choice := env.excerpt d.chosen_option 240,
        choice_sha256 :=
          match decisionChoiceSha.find? (fun kv => kv.1 == d.id) with
          | some kv => kv.2
          | none => "",
        rationale := env.excerpt d.intent_text 140 })
  let timeline := env.timelineMacro msgs 6
  let portable := env.portableMemory msgs digest.topics rawDecisions timeline
    (if semanticHints then "ultra_plus" else "ultra")
  { protocol := some (if semanticHints then "RCEP_v2_UltraPlus" else "RCEP_v2_Ultra")
    version := none
    session_id := if digest.session_id ≠ "" then digest.session_id
                  else "conv-" ++ env.nowMsHex
    timestamp := digest.timestamp
    partial_flag := none
    partial_reason := none
    topics := prunedTopics
    decisions := none
    ultra_decisions := some prunedDecisions
    insights := none
    context_summary := none
    timeline_macro := some timeline
    cognitive_spine := none
    portable_memory := some portable
    semantic_hints :=
      if semanticHints then
        some (env.semanticHintsOf prunedTopics prunedDecisions rawDecisions timeline msgs)
      else none
    transcript_compact := none
    transcript_format := none
    messages := none
    conversation_fingerprint := some transcriptSha256
    metadata_messages := some msgs.length
    checksum := ""
    signature_blob := none }

/-- `RL4SnapshotGenerator.generate` (part_004 lines 470-674).  The deadline
checks are modelled by the oracle `clock k` — the value of
`Date.now() > deadline` at the k-th `_checkDeadline()` call. -/
def generate (env : ExtractorEnv) (clock : Nat → Bool)
    (messages : List ContentJs.StoredMsg) (budget : Budget) (opts : GenOptions) :
    Snapshot :=
  let includeTranscript := opts.includeTranscript.getD true
  let outputMode := if opts.outputMode = "ultra" ∨ opts.outputMode = "ultra_plus"
    then opts.outputMode else "digest"
  let nowIso := env.nowIso
  let sessionId := pickSessionId env messages nowIso
  if clock 0 then generatePartialSnapshot env messages "deadline_exceeded" ⟨none, none⟩
  else
    let topics := (env.extractTopics messages).take budget.maxTopics
    if clock 1 then
      generatePartialSnapshot env messages "deadline_exceeded" ⟨some topics, none⟩
    else
      let decisions := (env.extractDecisions messages).take budget.maxDecisions
      if clock 2 then
        generatePartialSnapshot env messages "deadline_exceeded"
          ⟨some topics, some decisions⟩
      else
        let insights := (env.extractInsights messages).take budget.maxInsights
        let contextSummary := generateSummary messages topics decisions
        let dedup := dedupMessages messages topics
        let normalizedMessages := dedup.map (fun m => { m with session_id := sessionId })
        let transcriptCompact := encodeMessagesCompact normalizedMessages
        let transcriptSha256 := env.sha256Hex transcriptCompact
        let timeline := env.timelineMacro normalizedMessages 6
        let spine := env.cognitiveSpine normalizedMessages topics decisions insights timeline
        let portable := env.portableMemory normalizedMessages topics decisions timeline
          outputMode
        let digest0 : Snapshot :=
          { protocol := some "RCEP_v1"
            version := some "0.3.0-digest"
            session_id := sessionId
            timestamp := nowIso
            partial_flag := none
            partial_reason := none
            topics := topics
            decisions := some decisions
            ultra_decisions := none
            insights := some insights
            context_summary := some contextSummary
            timeline_macro := some timeline
            cognitive_spine := some spine
            portable_memory := some portable
            semantic_hints := none
            transcript_compact := none
            transcript_format := none
            messages := none
            conversation_fingerprint := some transcriptSha256
            metadata_messages := some normalizedMessages.length
            checksum := ""
            signature_blob := none }
        let digest :=
          if includeTranscript ∧ outputMode ≠ "ultra" ∧ outputMode ≠ "ultra_plus" then
            { digest0 with
              transcript_compact := some transcriptCompact,
              transcript_format :=
                some "ROLE:\\nCONTENT (messages separated by \\n\\n<|RL4_MSG|>\\n\\n)" }
          else digest0
        if outputMode = "ultra" ∨ outputMode = "ultra_plus" then
          let decisionChoiceSha := decisions.filterMap (fun d =>
            if d.id ≠ "" ∧ d.chosen_option ≠ "" then
              some (d.id, env.sha256Hex d.chosen_option)
            else none)
          let ultra := buildUltraSnapshot env digest transcriptSha256 normalizedMessages
            (outputMode = "ultra_plus") decisionChoiceSha
          { ultra with checksum := env.checksum ultra }
        else
          { digest with checksum := env.checksum digest }

/-- The transcript-flag computation and final generation of `runSnapshotJob`
(part_003 lines 370-514): force the flag off for ultra modes, pick the
richer of API and DOM messages, auto-disable the transcript for huge
captures, generate, then checksum and optionally seal. -/
def runSnapshotJobSnapshot (env : ExtractorEnv) (clock : Nat → Bool)
    (options : GenOptions) (apiMsgs domMsgs : List ContentJs.StoredMsg) : Snapshot :=
  let outputMode := options.outputMode
  let includeTranscript0 := options.includeTranscript.getD false
  let includeTranscript1 :=
    if outputMode = "ultra" ∨ outputMode = "ultra_plus" then false
    else includeTranscript0
  let messages := Background.pickBestMessages apiMsgs domMsgs
  let approxChars : Nat := (messages.map (fun m => m.content.data.length)).sum
  let includeTranscript2 :=
    if messages.length > 1500 ∨ approxChars > 1200000 then false
    else includeTranscript1
  let snapshot := generate env clock messages defaultBudget
    { includeTranscript := some includeTranscript2, outputMode := outputMode,
      wantsIntegritySeal := options.wantsIntegritySeal }
  let snapshot := { snapshot with checksum := env.checksum snapshot }
  if options.wantsIntegritySeal then
    { snapshot with signature_blob := some (env.signChecksum snapshot.checksum) }
  else snapshot

/-- A trivial environment (all external helpers constant), used to exercise
the generator theorems on concrete inputs. -/
def trivialEnv : ExtractorEnv :=
  { extractTopics := fun _ => []
    extractDecisions := fun _ => []
    extractInsights := fun _ => []
    sha256Hex := fun _ => "h"
    checksum := fun _ => "c"
    signChecksum := fun _ => "sig"
    timelineMacro := fun _ _ => ""
    cognitiveSpine := fun _ _ _ _ _ => ""
    portableMemory := fun _ _ _ _ _ => ""
    semanticHintsOf := fun _ _ _ _ _ => ""
    excerpt := fun s _ => s
    nowIso := "2026-01-01T00:00:00.000Z"
    nowMsHex := "aa" }

end Gen

namespace Extraction

/-- The backtick character (code point 96). -/
def btick : Char := Char.ofNat 96

/-- Split a character list at the first occurrence of `pat`, returning the
part before the match and the part after it. -/
def splitOnce (pat : List Char) : List Char → Option (List Char × List Char)
  | [] => if pat.isPrefixOf [] then some ([], []) else none
  | c :: t =>
    if pat.isPrefixOf (c :: t) then some ([], (c :: t).drop pat.length)
    else (splitOnce pat t).map (fun ba => (c :: ba.1, ba.2))

theorem splitOnce_length (pat : List Char) (hp : pat ≠ []) :
    ∀ (l b a : List Char), splitOnce pat l = some (b, a) → a.length < l.length := by
  intro l
  induction l with
  | nil =>
    intro b a h
    unfold splitOnce at h
    rcases pat with _ | ⟨c, t⟩
    · exact absurd rfl hp
    · simp [List.isPrefixOf] at h
  | cons c t ih =>
    intro b a h
    unfold splitOnce at h
    by_cases hpre : pat.isPrefixOf (c :: t)
    · rw [if_pos hpre] at h
      simp at h
      rcases pat with _ | ⟨p, ps⟩
      · exact absurd rfl hp
      · rw [← h.2]
        simp
        omega
    · rw [if_neg hpre] at h
      rcases h2 : splitOnce pat t with _ | ⟨b', a'⟩
      · rw [h2] at h
        simp at h
      · rw [h2] at h
        simp at h
        have := ih b' a' h2
        rw [← h.2]
        simp
        omega

/-- Replace every (lazily matched) `delim … delim` block by a single space,
as the `/delim[\s\S]*?delim/g` replacements of `stripCode` do; an unmatched
opening delimiter matches nothing.  The fuel argument only bounds the
recursion; the wrapper passes the list length, which each step (consuming
two delimiters) never exhausts. -/
def stripPairsGo (delim : List Char) : Nat → List Char → List Char
  | 0, l => l
  | fuel + 1, l =>
    match splitOnce delim l with
    | none => l
    | some (before, rest) =>
      match splitOnce delim rest with
      | none => l
      | some (_, after) => before ++ ' ' :: stripPairsGo delim fuel after

def stripPairs (delim : List Char) (l : List Char) : List Char :=
  stripPairsGo delim l.length l

/-- `stripCode`: remove fenced blocks, then inline code, then collapse
whitespace and trim. -/
def stripCode (text : String) : String :=
  let noFences := stripPairs [btick, btick, btick] text.data
  let noInline := stripPairs [btick] noFences
  String.mk (JsStr.trimChars (JsStr.wsCollapse noInline))

/-- Take up to `n` leading characters satisfying `p`, returning them and
the remainder. -/
def takeUpTo (n : Nat) (p : Char → Bool) : List Char → List Char × List Char
  | [] => ([], [])
  | c :: t =>
    match n with
    | 0 => ([], c :: t)
    | n' + 1 =>
      if p c then
        let (tk, rest) := takeUpTo n' p t
        (c :: tk, rest)
      else ([], c :: t)

/-- The `/^\s{0,3}#{1,6}\s+/gm` heading strip.  After `stripCode` the string
is single-line (all whitespace collapsed to plain spaces), so the
multi-line anchor can only match at position 0. -/
def stripHeading (l : List Char) : List Char :=
  let (_, r1) := takeUpTo 3 JsStr.jsIsWs l
  let (hashes, r2) := takeUpTo 6 (fun c => c == '#') r1
  match hashes, r2 with
  | _ :: _, c :: t =>
    if JsStr.jsIsWs c then ' ' :: (c :: t).dropWhile JsStr.jsIsWs else l
  | _, _ => l

/-- The `/^\s*[-*]\s+/gm` list-marker strip (again position 0 only). -/
def stripListMarker (l : List Char) : List Char :=
  let r1 := l.dropWhile JsStr.jsIsWs
  match r1 with
  | c :: d :: t =>
    if (c == '-' || c == '*') && JsStr.jsIsWs d then
      ' ' :: (d :: t).dropWhile JsStr.jsIsWs
    else l
  | _ => l

/-- JS `\w` (no `u` flag): ASCII letters, digits, underscore. -/
def isJsWordChar (c : Char) : Bool :=
  ('a' ≤ c && c ≤ 'z') || ('A' ≤ c && c ≤ 'Z') || ('0' ≤ c && c ≤ '9') || c == '_'

/-- Case-insensitive literal prefix test. -/
def ciPrefix (pat : String) (l : List Char) : Bool :=
  (pat.data.map JsStr.jsToLowerChar).isPrefixOf (l.map JsStr.jsToLowerChar)

/-- Whether `/\bhttps?:\/\/\S+/gi` matches at this position (the `\S+`
requires at least one non-space character after the scheme). -/
def urlAt (l : List Char) : Bool :=
  (ciPrefix "http://" l && (match l.drop 7 with
    | c :: _ => !(JsStr.jsIsWs c)
    | [] => false)) ||
  (ciPrefix "https://" l && (match l.drop 8 with
    | c :: _ => !(JsStr.jsIsWs c)
    | [] => false))

/-- The URL removal `t.replace(/\bhttps?:\/\/\S+/gi, ' ')`: at a word
boundary, a matched URL (the maximal non-space run) becomes one space.
`prev` is the original character preceding the scan position. -/
def stripUrlsGo (prev : Option Char) : Nat → List Char → List Char
  | _, [] => []
  | 0, l => l
  | fuel + 1, c :: t =>
    if (match prev with
        | none => true
        | some p => !(isJsWordChar p)) && urlAt (c :: t) then
      let runTail := t.takeWhile (fun x => !(JsStr.jsIsWs x))
      let rest := t.drop runTail.length
      ' ' :: stripUrlsGo (some ((c :: runTail).getLastD c)) fuel rest
    else c :: stripUrlsGo (some c) fuel t

/-- Replace every maximal run of characters from `inSet` of length at least
`minLen` by one space (the `[-=]{3,}` and `[|]{2,}` replacements). -/
def collapseRunsGo (inSet : Char → Bool) (minLen : Nat) : Nat → List Char → List Char
  | _, [] => []
  | 0, l => l
  | fuel + 1, c :: t =>
    if inSet c then
      let runTail := t.takeWhile inSet
      let rest := t.drop runTail.length
      if runTail.length + 1 ≥ minLen then ' ' :: collapseRunsGo inSet minLen fuel rest
      else (c :: runTail) ++ collapseRunsGo inSet minLen fuel rest
    else c :: collapseRunsGo inSet minLen fuel t

def collapseRuns (inSet : Char → Bool) (minLen : Nat) (l : List Char) : List Char :=
  collapseRunsGo inSet minLen l.length l

/-- Maximal non-separator segments of a list (empty segments, which the
callers drop anyway, are omitted). -/
def segmentsByGo (isSep : Char → Bool) : Nat → List Char → List (List Char)
  | _, [] => []
  | 0, _ => []
  | fuel + 1, c :: t =>
    if isSep c then segmentsByGo isSep fuel t
    else (c :: t.takeWhile (fun x => !(isSep x))) ::
      segmentsByGo isSep fuel (t.drop (t.takeWhile (fun x => !(isSep x))).length)

def segmentsBy (isSep : Char → Bool) (l : List Char) : List (List Char) :=
  segmentsByGo isSep l.length l

/-- Unicode letters of the program's languages (ASCII plus Latin-1 letters),
modelling `\p{L}` for the line heuristic. -/
def isLetterChar (c : Char) : Bool :=
  c.isAlpha || (0xc0 ≤ c.val && c.val ≤ 0xff && c.val ≠ 0xd7 && c.val ≠ 0xf7)

/-- Characters counted by the `[{}()[\];]` code-density heuristics. -/
def isBraceChar (c : Char) : Bool :=
  c == '(' || c == ')' || c == '[' || c == ']' || c == ';' ||
  c.val == 0x7b || c.val == 0x7d

/-- The per-line filter of `normalizeForExtraction`: drop blank lines,
long mostly-non-letter lines (`letters/len < 0.55`, length ≥ 60 — modelled
as the exact rational comparison), and brace-heavy lines (≥ 8). -/
def lineFilter (p : List Char) : Option (List Char) :=
  let s := JsStr.trimChars p
  if s = [] then none
  else
    let letters := (s.filter isLetterChar).length
    if s.length ≥ 60 ∧ letters * 20 < 11 * max 1 s.length then none
    else if (s.filter isBraceChar).length ≥ 8 then none
    else some s

/-- `normalizeForExtraction`: strip code, headings, list markers, URLs,
arrows and separator runs, drop code-looking lines, and collapse
whitespace. -/
def normalizeForExtraction (text : String) : String :=
  let t1 := (stripCode text).data
  let t2 := stripHeading t1
  let t3 := stripListMarker t2
  let t4 := stripUrlsGo none t3.length t3
  let t5 := t4.map (fun c =>
    if c = '↓' ∨ c = '→' ∨ c = '←' ∨ c = '⇒' ∨ c = '⇐' then ' ' else c)
  let t6 := collapseRuns (fun c => c == '-' || c == '=') 3 t5
  let t7 := collapseRuns (fun c => c == '|') 2 t6
  let parts := segmentsBy (fun c => c == '\n') t7
  let filtered := parts.filterMap lineFilter
  let joined := String.intercalate " " (filtered.map String.mk)
  String.mk (JsStr.trimChars (JsStr.wsCollapse joined.data))

/-- A token of a literal case-insensitive pattern with `\s*` / `\s+` gaps. -/
inductive PatTok where
  | lit (c : Char)
  | wsStar
  | wsPlus
deriving DecidableEq

/-- Literal tokens of a (lower-case) pattern string. -/
def litToks (s : String) : List PatTok := s.data.map PatTok.lit

/-- Match a token pattern at the head of the list, returning the remainder.
The whitespace gaps are greedy, which is exact because every gap is
followed by a non-space literal. -/
def matchToksAt : List PatTok → List Char → Option (List Char)
  | [], l => some l
  | .lit c :: ps, x :: t =>
    if JsStr.jsToLowerChar x == c then matchToksAt ps t else none
  | .lit _ :: _, [] => none
  | .wsStar :: ps, l => matchToksAt ps (l.dropWhile JsStr.jsIsWs)
  | .wsPlus :: ps, l =>
    match l with
    | x :: _ => if JsStr.jsIsWs x then matchToksAt ps (l.dropWhile JsStr.jsIsWs) else none
    | [] => none

/-- Whether the pattern matches anywhere in the list (`RegExp.test` of an
unanchored pattern). -/
def testPattern (toks : List PatTok) : List Char → Bool
  | [] => (matchToksAt toks []).isSome
  | c :: t => (matchToksAt toks (c :: t)).isSome || testPattern toks t

/-- The `insightPatterns` list of `extractInsights` (English and French
marker phrases, case-insensitive). -/
def insightPatternList : List (List PatTok) :=
  [litToks "critical:",
   litToks "important:",
   litToks "key" ++ [.wsPlus] ++ litToks "insight:",
   litToks "remember:",
   litToks "note:",
   litToks "critique" ++ [.wsStar] ++ litToks ":",
   litToks "important" ++ [.wsStar] ++ litToks ":",
   litToks "point" ++ [.wsPlus] ++ litToks "cl\xe9" ++ [.wsStar] ++ litToks ":",
   litToks "\xe0" ++ [.wsPlus] ++ litToks "retenir" ++ [.wsStar] ++ litToks ":",
   litToks "note" ++ [.wsStar] ++ litToks ":"]

def insightPatternHit (s : List Char) : Bool :=
  insightPatternList.any (fun p => testPattern p s)

/-- One alternative of the goal-statement heuristic: the tokens, then the
regex `\b`.  For an alternative ending in a letter the boundary demands a
non-word character (or the end); for one ending in `:` it demands a word
character right after. -/
def altHit (toks : List PatTok) (endsInWord : Bool) (l : List Char) : Bool :=
  match matchToksAt toks l with
  | some rest =>
    match rest with
    | [] => endsInWord
    | c :: _ => if endsInWord then !(isJsWordChar c) else isJsWordChar c
  | none => false

/-- The heuristic
`/^\s*(je\s+veux|objectif\s*:|goal\s*:|il\s+faut|we\s+need\s+to)\b/i`. -/
def heuristicHit (s : List Char) : Bool :=
  let l := s.dropWhile JsStr.jsIsWs
  altHit (litToks "je" ++ [.wsPlus] ++ litToks "veux") true l ||
  altHit (litToks "objectif" ++ [.wsStar] ++ litToks ":") false l ||
  altHit (litToks "goal" ++ [.wsStar] ++ litToks ":") false l ||
  altHit (litToks "il" ++ [.wsPlus] ++ litToks "faut") true l ||
  altHit (litToks "we" ++ [.wsPlus] ++ litToks "need" ++ [.wsPlus] ++ litToks "to") true l

theorem dropWhile_length_le (p : Char → Bool) (t : List Char) :
    (t.dropWhile p).length ≤ t.length := by
  induction t with
  | nil => simp
  | cons a l ih =>
    by_cases h : p a <;> simp [List.dropWhile, h]
    omega

/-- The sentence split `/(?<=[.!?])\s+/`: break at each whitespace run whose
preceding character is `.`, `!` or `?`.  `cur` holds the current sentence
reversed. -/
def splitSentencesGo (cur : List Char) : Nat → List Char → List (List Char)
  | _, [] => [cur.reverse]
  | 0, l => [(cur.reverse ++ l)]
  | fuel + 1, c :: t =>
    if JsStr.jsIsWs c && (match cur with
        | p :: _ => p == '.' || p == '!' || p == '?'
        | [] => false) then
      cur.reverse :: splitSentencesGo [] fuel (t.dropWhile JsStr.jsIsWs)
    else splitSentencesGo (c :: cur) fuel t

def splitSentences (l : List Char) : List (List Char) := splitSentencesGo [] l.length l

/-- The 240-character excerpt applied to a pushed marker sentence. -/
def insightExcerpt (str : List Char) : String :=
  if str.length > 240 then String.mk (str.take 237) ++ "..." else String.mk str

/-- The inner sentence loop of `extractInsights`: push marker-phrase
sentences (returning the whole result as soon as the count reaches 10
afterwards), then push short goal-statement sentences while under 10.
The boolean reports the early `return insights`. -/
def processSentences (insights : List String) :
    List (List Char) → List String × Bool
  | [] => (insights, false)
  | s :: rest =>
    let str := JsStr.trimChars s
    if str = [] then processSentences insights rest
    else if str.length > 280 then processSentences insights rest
    else
      let insights1 :=
        if insightPatternHit str then insights ++ [insightExcerpt str] else insights
      if insightPatternHit str ∧ insights1.length ≥ 10 then (insights1, true)
      else
        let insights2 :=
          if insights1.length < 10 ∧ heuristicHit str ∧ str.length ≤ 200 then
            insights1 ++ [String.mk str]
          else insights1
        processSentences insights2 rest

/-- The outer message loop of `extractInsights`. -/
def extractInsightsGo (insights : List String) :
    List ContentJs.StoredMsg → List String
  | [] => insights
  | m :: rest =>
    let text := normalizeForExtraction m.content
    if text = "" then extractInsightsGo insights rest
    else
      let r := processSentences insights (splitSentences text.data)
      if r.2 then r.1 else extractInsightsGo r.1 rest

/-- `extractInsights` (src/lib/extraction.js lines 513-551). -/
def extractInsights (messages : List ContentJs.StoredMsg) : List String :=
  extractInsightsGo [] messages

/-- The failing input for the insight cap: ten goal-statement sentences
followed by one marker sentence. -/
def insightCapCexContent : String :=
  "je veux un a. je veux un b. je veux un c. je veux un d. je veux un e. " ++
  "je veux un f. je veux un g. je veux un h. je veux un i. je veux un j. " ++
  "Important: fin."

end Extraction

/-- Helper: a run of `n` copies of a character, used for concrete inputs. -/
def charRun (c : Char) (n : Nat) : String := String.mk (List.replicate n c)

/-! ## Theorems -/

/-- A string is determined by its character list. -/
theorem string_eq_of_data {s t : String} (h : s.data = t.data) : s = t := by
  cases s; cases t; exact congrArg String.mk h

/-- `++` on strings is injective on the right. -/
theorem string_append_right_inj {p t₁ t₂ : String} (h : p ++ t₁ = p ++ t₂) : t₁ = t₂ := by
  have hd : (p ++ t₁).data = (p ++ t₂).data := congrArg String.data h
  rw [String.data_append, String.data_append] at hd
  exact string_eq_of_data (List.append_cancel_left hd)

theorem trimRight_isPrefix (l : List Char) : JsStr.trimRightChars l <+: l := by
  have h : l = (l.reverse.dropWhile JsStr.jsIsWs).reverse ++
      (l.reverse.takeWhile JsStr.jsIsWs).reverse := by
    conv_lhs => rw [← List.reverse_reverse l,
      ← List.takeWhile_append_dropWhile JsStr.jsIsWs l.reverse]
    rw [List.reverse_append]
  rw [JsStr.trimRightChars]
  conv_rhs => rw [h]
  exact List.prefix_append _ _

theorem trimRight_append (a m : List Char) :
    JsStr.trimRightChars (a ++ m) =
      if JsStr.trimRightChars m = [] then JsStr.trimRightChars a
      else a ++ JsStr.trimRightChars m := by
  unfold JsStr.trimRightChars
  rw [List.reverse_append, List.dropWhile_append]
  by_cases hm : List.dropWhile JsStr.jsIsWs m.reverse = []
  · simp [hm]
  · have h1 : (List.dropWhile JsStr.jsIsWs m.reverse).isEmpty = false := by
      simpa [List.isEmpty_iff] using hm
    have h2 : ¬ ((List.dropWhile JsStr.jsIsWs m.reverse).reverse = []) := by
      simpa using hm
    simp [h1, h2, List.reverse_append]

/-- Appending to a string whose trim is nonempty keeps the old trim as a
prefix of the new trim, and the new trim stays nonempty. -/
theorem trim_append_prefix (l m : List Char) (h : JsStr.trimChars l ≠ []) :
    JsStr.trimChars l <+: JsStr.trimChars (l ++ m) ∧ JsStr.trimChars (l ++ m) ≠ [] := by
  unfold JsStr.trimChars at *
  have hdl : JsStr.trimLeftChars l ≠ [] := by
    intro h0
    apply h
    rw [h0]
    rfl
  have h1 : JsStr.trimLeftChars (l ++ m) = JsStr.trimLeftChars l ++ m := by
    unfold JsStr.trimLeftChars at *
    rw [List.dropWhile_append]
    have : (List.dropWhile JsStr.jsIsWs l).isEmpty = false := by
      simpa [List.isEmpty_iff] using hdl
    simp [this]
  rw [h1, trimRight_append]
  by_cases h2 : JsStr.trimRightChars m = []
  · rw [if_pos h2]
    exact ⟨List.prefix_refl _, h⟩
  · rw [if_neg h2]
    constructor
    · exact (trimRight_isPrefix (JsStr.trimLeftChars l)).trans (List.prefix_append _ _)
    · simp [hdl]

/-- `String`-level form: a streaming extension `c ++ s` of a content `c`
with nonempty trim trims to an extension of `c`'s trim. -/
theorem jsTrim_append_extends (c s : String) (h : JsStr.jsTrim c ≠ "") :
    JsStr.jsStartsWith (JsStr.jsTrim (c ++ s)) (JsStr.jsTrim c) = true ∧
    JsStr.jsTrim (c ++ s) ≠ "" := by
  have hne : JsStr.trimChars c.data ≠ [] := by
    intro h0
    apply h
    unfold JsStr.jsTrim
    rw [h0]
  have hmain := trim_append_prefix c.data s.data hne
  have hdata : (c ++ s).data = c.data ++ s.data := String.data_append c s
  constructor
  · show (JsStr.trimChars c.data).isPrefixOf (JsStr.trimChars ((c ++ s).data)) = true
    rw [hdata]
    exact List.isPrefixOf_iff_prefix.mpr hmain.1
  · intro h0
    apply hmain.2
    have h1 := congrArg String.data h0
    simp only [JsStr.jsTrim, hdata] at h1
    exact h1

/-- C6 counterexample: the claim fails for a stored last message whose
content is empty — `"x"` is a strict extension of `""` for the same role,
yet `tryUpdateLastStreaming` refuses (the code requires both trimmed
contents nonempty) and the append-mode scan appends a second entry instead
of updating in place. -/
theorem streaming_empty_content_appends_cex :
    ContentJs.tryUpdateLastStreaming
        [⟨"msg-1", "user", "", "t0", "s", 0⟩] ⟨"user", "x"⟩ 5 = none ∧
    JsStr.jsStartsWith "x" "" = true ∧
    (ContentJs.appendScan [⟨"msg-1", "user", "", "t0", "s", 0⟩]
        [⟨"user", "x"⟩] "s" "t1" 5).length = 2 := by
  decide

/-- C6 (amended): for a stored list whose last entry has a content with
nonempty trim and a nonempty role, an incoming candidate of the same role
whose content extends the stored content is treated as a streaming
continuation: the scan rewrites the last entry in place (to the trimmed new
content) and the list length is unchanged. -/
theorem streaming_extension_updates_in_place :
    ∀ (existing : List ContentJs.StoredMsg) (last : ContentJs.StoredMsg)
      (inc : ContentJs.Candidate) (sessionId nowIso : String) (nowMs : Nat)
      (ext : String),
      existing.getLast? = some last →
      inc.role = last.role → last.role ≠ "" →
      JsStr.jsTrim last.content ≠ "" →
      inc.content = last.content ++ ext →
      ContentJs.appendScan existing [inc] sessionId nowIso nowMs =
        existing.dropLast ++
          [{ last with content := JsStr.jsTrim inc.content, captured_at := nowMs }] ∧
      (ContentJs.appendScan existing [inc] sessionId nowIso nowMs).length =
        existing.length := by
  intro existing last inc sessionId nowIso nowMs ext hlast hrole hrolene htrim hext
  have hx := jsTrim_append_extends last.content ext htrim
  rw [← hext] at hx
  have hupd : ContentJs.tryUpdateLastStreaming existing inc nowMs =
      some (existing.dropLast ++
        [{ last with content := JsStr.jsTrim inc.content, captured_at := nowMs }]) := by
    simp only [ContentJs.tryUpdateLastStreaming, hlast]
    rw [if_neg (by rw [hrole]; exact hrolene)]
    rw [if_neg (by rw [hrole]; simp)]
    rw [if_neg (by push_neg; exact ⟨htrim, hx.2⟩)]
    rw [if_pos (by rw [hx.1]; simp)]
  have hne : existing ≠ [] := by
    intro h0
    rw [h0] at hlast
    simp at hlast
  have hlen : existing.length ≥ 1 := by
    cases existing with
    | nil => exact absurd rfl hne
    | cons a t => simp
  constructor
  · unfold ContentJs.appendScan
    simp [ContentJs.appendScanStep, hupd]
  · unfold ContentJs.appendScan
    simp [ContentJs.appendScanStep, hupd, List.length_dropLast]
    omega

/-- C6 witness: the amended statement at a concrete list — stored `hello`
(user), incoming `hello world` (user) updates in place, keeping length 1. -/
theorem streaming_extension_updates_in_place_witness :
    ContentJs.appendScan [⟨"msg-1", "user", "hello", "t0", "s", 0⟩]
        [⟨"user", "hello world"⟩] "s" "t1" 5 =
      [⟨"msg-1", "user", "hello world", "t0", "s", 5⟩] ∧
    (ContentJs.appendScan [⟨"msg-1", "user", "hello", "t0", "s", 0⟩]
        [⟨"user", "hello world"⟩] "s" "t1" 5).length = 1 := by
  have h := streaming_extension_updates_in_place
    [⟨"msg-1", "user", "hello", "t0", "s", 0⟩]
    ⟨"msg-1", "user", "hello", "t0", "s", 0⟩
    ⟨"user", "hello world"⟩ "s" "t1" 5 " world"
    (by decide) (by decide) (by decide) (by decide) (by decide)
  exact ⟨h.1.trans (by decide), h.2.trans (by decide)⟩

theorem nodup_concat {α : Type} [DecidableEq α] {l : List α} {a : α}
    (h : l.Nodup) (h2 : a ∉ l) : (l ++ [a]).Nodup := by
  rw [List.nodup_append]
  refine ⟨h, List.nodup_singleton a, ?_⟩
  intro b hb hba
  simp at hba
  exact h2 (hba ▸ hb)

/-- One step of the append-mode scan preserves the seen-set invariant when
no streaming update fires. -/
theorem appendScanStep_inv (sid iso : String) (ms : Nat)
    (st : List ContentJs.StoredMsg × List String) (p : ContentJs.Candidate)
    (hu : ContentJs.tryUpdateLastStreaming st.1 p ms = none)
    (h1 : ContentJs.sigsOf st.1 ⊆ st.2)
    (h2 : (ContentJs.sigsOf st.1).Nodup) :
    ContentJs.sigsOf (ContentJs.appendScanStep sid iso ms st p).1 ⊆
        (ContentJs.appendScanStep sid iso ms st p).2 ∧
      (ContentJs.sigsOf (ContentJs.appendScanStep sid iso ms st p).1).Nodup := by
  simp only [ContentJs.appendScanStep, hu]
  by_cases hm : ContentJs.signature p.role p.content ∈ st.2
  · rw [if_pos hm]
    exact ⟨h1, h2⟩
  · rw [if_neg hm]
    have hsig : ContentJs.sigsOf
        (st.1 ++ [{ id := "msg-" ++ toString (st.1.length + 1), role := p.role,
                    content := p.content, timestamp := iso,
                    session_id := sid, captured_at := ms }]) =
        ContentJs.sigsOf st.1 ++ [ContentJs.signature p.role p.content] := by
      simp [ContentJs.sigsOf]
    constructor
    · rw [hsig]
      intro x hx
      rcases List.mem_append.mp hx with hx1 | hx2
      · exact List.mem_append.mpr (Or.inl (h1 hx1))
      · exact List.mem_append.mpr (Or.inr hx2)
    · rw [hsig]
      exact nodup_concat h2 (fun hmem => hm (h1 hmem))

/-- The whole append-mode fold preserves the invariant if no step performs
a streaming update. -/
theorem appendScan_fold_inv (sid iso : String) (ms : Nat) :
    ∀ (parsed : List ContentJs.Candidate) (st : List ContentJs.StoredMsg × List String),
      ContentJs.sigsOf st.1 ⊆ st.2 →
      (ContentJs.sigsOf st.1).Nodup →
      ContentJs.appendScanUpdateFree sid iso ms st parsed = true →
      ContentJs.sigsOf (parsed.foldl (ContentJs.appendScanStep sid iso ms) st).1 ⊆
          (parsed.foldl (ContentJs.appendScanStep sid iso ms) st).2 ∧
        (ContentJs.sigsOf (parsed.foldl (ContentJs.appendScanStep sid iso ms) st).1).Nodup := by
  intro parsed
  induction parsed with
  | nil => exact fun st h1 h2 _ => ⟨h1, h2⟩
  | cons p rest ih =>
    intro st h1 h2 hfree
    rw [List.foldl_cons]
    unfold ContentJs.appendScanUpdateFree at hfree
    cases hu : ContentJs.tryUpdateLastStreaming st.1 p ms with
    | some upd =>
      rw [hu] at hfree
      simp at hfree
    | none =>
      rw [hu] at hfree
      have hstep := appendScanStep_inv sid iso ms st p hu h1 h2
      exact ih _ hstep.1 hstep.2 hfree

/-- One push of the API+DOM merge preserves the seen-set invariant. -/
theorem mergePush_inv (st : List ContentJs.StoredMsg × List String)
    (m : ContentJs.StoredMsg)
    (h1 : ContentJs.sigsOf st.1 ⊆ st.2)
    (h2 : (ContentJs.sigsOf st.1).Nodup) :
    ContentJs.sigsOf (ContentJs.mergePush st m).1 ⊆ (ContentJs.mergePush st m).2 ∧
      (ContentJs.sigsOf (ContentJs.mergePush st m).1).Nodup := by
  simp only [ContentJs.mergePush]
  by_cases hskip : m.role = "" ∨ m.content = ""
  · rw [if_pos hskip]
    exact ⟨h1, h2⟩
  · rw [if_neg hskip]
    by_cases hm : ContentJs.signature m.role m.content ∈ st.2
    · rw [if_pos hm]
      exact ⟨h1, h2⟩
    · rw [if_neg hm]
      have hsig : ContentJs.sigsOf (st.1 ++ [m]) =
          ContentJs.sigsOf st.1 ++ [ContentJs.signature m.role m.content] := by
        simp [ContentJs.sigsOf]
      constructor
      · rw [hsig]
        intro x hx
        rcases List.mem_append.mp hx with hx1 | hx2
        · exact List.mem_append.mpr (Or.inl (h1 hx1))
        · exact List.mem_append.mpr (Or.inr hx2)
      · rw [hsig]
        exact nodup_concat h2 (fun hmem => hm (h1 hmem))

theorem mergePush_fold_inv :
    ∀ (msgs : List ContentJs.StoredMsg) (st : List ContentJs.StoredMsg × List String),
      ContentJs.sigsOf st.1 ⊆ st.2 →
      (ContentJs.sigsOf st.1).Nodup →
      ContentJs.sigsOf (msgs.foldl ContentJs.mergePush st).1 ⊆
          (msgs.foldl ContentJs.mergePush st).2 ∧
        (ContentJs.sigsOf (msgs.foldl ContentJs.mergePush st).1).Nodup := by
  intro msgs
  induction msgs with
  | nil => exact fun st h1 h2 => ⟨h1, h2⟩
  | cons m rest ih =>
    intro st h1 h2
    rw [List.foldl_cons]
    have hstep := mergePush_inv st m h1 h2
    exact ih _ hstep.1 hstep.2

/-- Reassigning sequential ids and session ids does not change signatures. -/
theorem sigsOf_reindexFrom (sid : String) :
    ∀ (k : Nat) (l : List ContentJs.StoredMsg),
      ContentJs.sigsOf (ContentJs.reindexFrom sid k l) = ContentJs.sigsOf l := by
  intro k l
  induction l generalizing k with
  | nil => rfl
  | cons m rest ih =>
    simp only [ContentJs.reindexFrom, ContentJs.sigsOf, List.map_cons]
    have h := ih (k + 1)
    simp only [ContentJs.sigsOf] at h
    rw [h]

/-- C3 counterexample: a sequence of two append-mode scans in one session
breaks the no-duplicate-signature invariant — the second scan's streaming
update rewrites the last message (`hell` → `hello`) so that it collides
with the signature of the first stored message. -/
theorem scan_streaming_update_breaks_dedup_cex :
    ¬ ContentJs.NoDupSigs
      (ContentJs.appendScan
        (ContentJs.appendScan []
          [⟨"user", "hello"⟩, ⟨"assistant", "yo"⟩, ⟨"user", "hell"⟩] "s" "t0" 0)
        [⟨"user", "hello"⟩] "s" "t1" 1) := by
  decide

/-- C3 (amended): the API+DOM merge always yields a list with pairwise
distinct signatures, and an append-mode scan preserves
signature-distinctness of the stored list whenever it performs no in-place
streaming update; a streaming update can break the invariant (see the
counterexample). -/
theorem merge_and_updatefree_scan_nodup :
    (∀ (api dom : List ContentJs.StoredMsg) (sid : String),
       ContentJs.NoDupSigs (ContentJs.mergeApiDom api dom sid)) ∧
    (∀ (existing : List ContentJs.StoredMsg) (parsed : List ContentJs.Candidate)
       (sid iso : String) (ms : Nat),
       ContentJs.NoDupSigs existing →
       ContentJs.appendScanUpdateFree sid iso ms
           (existing, ContentJs.sigsOf existing) parsed = true →
       ContentJs.NoDupSigs (ContentJs.appendScan existing parsed sid iso ms)) := by
  constructor
  · intro api dom sid
    unfold ContentJs.NoDupSigs ContentJs.mergeApiDom
    rw [sigsOf_reindexFrom]
    exact (mergePush_fold_inv (api ++ dom) ([], [])
      (by simp [ContentJs.sigsOf]) (by simp [ContentJs.sigsOf])).2
  · intro existing parsed sid iso ms hnd hfree
    unfold ContentJs.NoDupSigs ContentJs.appendScan
    exact (appendScan_fold_inv sid iso ms parsed (existing, ContentJs.sigsOf existing)
      (List.Subset.refl _) hnd hfree).2

/-- C3 witness: the amended statement at concrete inputs — a merge of
overlapping API and DOM lists has distinct signatures, and an update-free
scan over a fresh candidate preserves distinctness. -/
theorem merge_and_updatefree_scan_nodup_witness :
    ContentJs.NoDupSigs
      (ContentJs.mergeApiDom
        [⟨"msg-1", "user", "hi", "t", "s", 0⟩]
        [⟨"msg-1", "user", "hi", "t", "s", 0⟩, ⟨"msg-2", "assistant", "yo", "t", "s", 0⟩]
        "s") ∧
    ContentJs.NoDupSigs
      (ContentJs.appendScan [⟨"msg-1", "user", "hi", "t", "s", 0⟩]
        [⟨"assistant", "fresh reply"⟩] "s" "t1" 3) :=
  ⟨merge_and_updatefree_scan_nodup.1
      [⟨"msg-1", "user", "hi", "t", "s", 0⟩]
      [⟨"msg-1", "user", "hi", "t", "s", 0⟩, ⟨"msg-2", "assistant", "yo", "t", "s", 0⟩] "s",
   merge_and_updatefree_scan_nodup.2
      [⟨"msg-1", "user", "hi", "t", "s", 0⟩]
      [⟨"assistant", "fresh reply"⟩] "s" "t1" 3 (by decide) (by decide)⟩

/-- C4 counterexample: with one API message (count 1) and two DOM messages
(count 2) — close counts — the final pick is the DOM list wholesale; the
API-only message is dropped rather than merged in by signature. -/
theorem pickbest_replaces_not_merges_cex :
    Background.pickBestMessages
        [⟨"msg-1", "user", "api only", "t", "s", 0⟩]
        [⟨"msg-1", "user", "alpha", "t", "s", 0⟩, ⟨"msg-2", "assistant", "beta", "t", "s", 0⟩] =
      [⟨"msg-1", "user", "alpha", "t", "s", 0⟩, ⟨"msg-2", "assistant", "beta", "t", "s", 0⟩] ∧
    (⟨"msg-1", "user", "api only", "t", "s", 0⟩ : ContentJs.StoredMsg) ∉
      Background.pickBestMessages
        [⟨"msg-1", "user", "api only", "t", "s", 0⟩]
        [⟨"msg-1", "user", "alpha", "t", "s", 0⟩, ⟨"msg-2", "assistant", "beta", "t", "s", 0⟩] := by
  decide

/-- C4 (amended): the final canonical list is simply whichever adapter list
holds more messages (API preferred on ties); the richer list replaces the
other wholesale and the final count is the max of the two counts — no
closeness-based signature merge happens at this pick. -/
theorem pickbest_richest_wins :
    ∀ api dom : List ContentJs.StoredMsg,
      (Background.pickBestMessages api dom = api ∨
       Background.pickBestMessages api dom = dom) ∧
      (Background.pickBestMessages api dom).length = max api.length dom.length ∧
      (api.length ≥ dom.length → Background.pickBestMessages api dom = api) ∧
      (dom.length > api.length → Background.pickBestMessages api dom = dom) := by
  intro api dom
  unfold Background.pickBestMessages
  by_cases h : api.length ≥ dom.length
  · rw [if_pos h]
    exact ⟨Or.inl rfl, by omega, fun _ => rfl, fun h2 => absurd h (by omega)⟩
  · rw [if_neg h]
    exact ⟨Or.inr rfl, by omega, fun h2 => absurd h2 h, fun _ => rfl⟩

/-- C4 witness: the amended statement applied at lists of lengths 1 and 2 —
the 2-element DOM list wins wholesale. -/
theorem pickbest_richest_wins_witness :
    Background.pickBestMessages
        [⟨"msg-1", "user", "api only", "t", "s", 0⟩]
        [⟨"msg-1", "user", "alpha", "t", "s", 0⟩, ⟨"msg-2", "assistant", "beta", "t", "s", 0⟩] =
      [⟨"msg-1", "user", "alpha", "t", "s", 0⟩, ⟨"msg-2", "assistant", "beta", "t", "s", 0⟩] :=
  (pickbest_richest_wins
      [⟨"msg-1", "user", "api only", "t", "s", 0⟩]
      [⟨"msg-1", "user", "alpha", "t", "s", 0⟩,
       ⟨"msg-2", "assistant", "beta", "t", "s", 0⟩]).2.2.2 (by decide)

/-- C7: while a snapshot job is running on the tab, a further
`startSnapshotJob` request is answered synchronously with a structured
`JOB_ALREADY_RUNNING` error, no second job is launched, and the per-tab job
state (active capture id, progress record, …) is left entirely unchanged. -/
theorem second_start_rejected :
    ∀ (st : Background.JobState) (req : Option String) (tab : Option Nat) (now : Nat),
      st.snapshotJobRunning = true →
      Background.handleStartSnapshotJob st req tab now =
        (st, { ok := false, errorCode := some "JOB_ALREADY_RUNNING",
               started := false, captureId := none }, false) := by
  intro st req tab now h
  unfold Background.handleStartSnapshotJob
  rw [h]
  simp

/-- C7 witness: a concrete running state is returned untouched with the
`JOB_ALREADY_RUNNING` error. -/
theorem second_start_rejected_witness :
    Background.handleStartSnapshotJob
        ⟨true, some "cap-1", some 7, ["c0"], some "dom", some ("cap-1", "scan")⟩
        (some "cap-2") (some 7) 99 =
      (⟨true, some "cap-1", some 7, ["c0"], some "dom", some ("cap-1", "scan")⟩,
       { ok := false, errorCode := some "JOB_ALREADY_RUNNING",
         started := false, captureId := none }, false) :=
  second_start_rejected
    ⟨true, some "cap-1", some 7, ["c0"], some "dom", some ("cap-1", "scan")⟩
    (some "cap-2") (some 7) 99 rfl

/-- C8 counterexample: the `content.js` dedup signature is prefix-only —
two distinct contents that agree on their first 300 normalized characters
but differ at the end receive the same `content.js` signature (while the
part_003 signature, which includes length/head/tail, distinguishes them). -/
theorem contentjs_signature_prefix_only_cex :
    ContentJs.signature "user" (charRun 'a' 301)
      = ContentJs.signature "user" (charRun 'a' 300 ++ "b") ∧
    Background.signature "user" (charRun 'a' 301)
      ≠ Background.signature "user" (charRun 'a' 300 ++ "b") := by
  constructor
  · decide
  · decide

/-- C8 (amended): the part_003 `signature` depends only on the normalized
content (deterministic: lower-cased, whitespace-collapsed), and it is not
prefix-only — two contents with equal normalized length and equal
220-character heads but different tails receive different signatures. -/
theorem background_signature_normalized_and_tail_sensitive :
    (∀ role c₁ c₂, JsStr.normalizeSig c₁ = JsStr.normalizeSig c₂ →
       Background.signature role c₁ = Background.signature role c₂) ∧
    (∀ role c₁ c₂,
       (JsStr.normalizeSig c₁).data.length = (JsStr.normalizeSig c₂).data.length →
       Background.sigHead (JsStr.normalizeSig c₁) = Background.sigHead (JsStr.normalizeSig c₂) →
       Background.sigTail (JsStr.normalizeSig c₁) ≠ Background.sigTail (JsStr.normalizeSig c₂) →
       Background.signature role c₁ ≠ Background.signature role c₂) := by
  constructor
  · intro role c₁ c₂ h
    simp only [Background.signature, h]
  · intro role c₁ c₂ hlen hhead htail heq
    apply htail
    simp only [Background.signature] at heq
    rw [hlen, hhead] at heq
    exact string_append_right_inj heq

/-- C8 witness: the amended statement applied at concrete contents —
`"A  b"` and `" a b"` normalize identically (same signature), and two
221-character contents sharing their first 220 characters but differing in
the last character have different part_003 signatures. -/
theorem background_signature_normalized_and_tail_sensitive_witness :
    Background.signature "user" "A  b" = Background.signature "user" " a b" ∧
    Background.signature "user" (charRun 'a' 221)
      ≠ Background.signature "user" (charRun 'a' 220 ++ "b") :=
  ⟨background_signature_normalized_and_tail_sensitive.1 "user" "A  b" " a b" (by decide),
   background_signature_normalized_and_tail_sensitive.2 "user"
     (charRun 'a' 221) (charRun 'a' 220 ++ "b") (by decide) (by decide) (by decide)⟩

/-- The parent walk, started anywhere on a parent chain that ends at a
root, accumulates exactly that chain. -/
theorem chainGo_spec (m : List (String × PageContext.CgptNode)) :
    ∀ (r acc : List String) (c : String),
      r.head? = some c →
      List.Chain' (fun a b => PageContext.parentOf m a = some b) r →
      (∀ z, r.getLast? = some z → PageContext.RootExit m z) →
      (∀ x ∈ r, x ≠ "" ∧ (PageContext.lookupNode m x).isSome) →
      (∀ x ∈ r, x ∉ acc) →
      r.Nodup →
      acc.length + r.length ≤ 100000 →
      PageContext.chainGo m acc (some c) = acc ++ r := by
  intro r
  induction r with
  | nil =>
    intro acc c hc
    simp at hc
  | cons c0 rest ih =>
    intro acc c hc hchain hroot hmem hdisj hnodup hlen
    have hc0 : c0 = c := by simpa using hc
    subst hc0
    have hcprops := hmem c0 (by simp)
    have hcond : c0 ≠ "" ∧ (PageContext.lookupNode m c0).isSome ∧ c0 ∉ acc ∧
        acc.length < 100000 := by
      refine ⟨hcprops.1, hcprops.2, hdisj c0 (by simp), ?_⟩
      simp at hlen
      omega
    rw [PageContext.chainGo]
    rw [dif_pos hcond]
    cases rest with
    | nil =>
      have hre := hroot c0 (by simp)
      rcases hcase : PageContext.parentOf m c0 with _ | q
      · rw [PageContext.chainGo]
      · have hq : q = "" ∨ PageContext.lookupNode m q = none := by
          unfold PageContext.RootExit PageContext.rootExitB at hre
          rw [hcase] at hre
          simpa [Option.isNone_iff_eq_none] using hre
        rw [PageContext.chainGo]
        rw [dif_neg]
        intro hC
        rcases hq with h0 | h0
        · exact hC.1 h0
        · rw [h0] at hC
          simp at hC
    | cons b rest' =>
      have hpc : PageContext.parentOf m c0 = some b := (List.chain'_cons.mp hchain).1
      rw [hpc]
      have hgoal : acc ++ c0 :: b :: rest' = (acc ++ [c0]) ++ (b :: rest') := by simp
      rw [hgoal]
      apply ih (acc ++ [c0]) b rfl (List.chain'_cons.mp hchain).2
      · intro z hz
        apply hroot
        rw [List.getLast?_cons_cons]
        exact hz
      · intro x hx
        exact hmem x (by simp [hx])
      · intro x hx
        simp only [List.mem_append, List.mem_singleton]
        push_neg
        constructor
        · exact hdisj x (by simp [hx])
        · intro h0
          subst h0
          exact absurd hx (by simpa using (List.nodup_cons.mp hnodup).1)
      · exact (List.nodup_cons.mp hnodup).2
      · simp at hlen ⊢
        omega

/-- C1: for a provider payload shaped as a parent-pointer conversation
graph — a `mapping` plus a (nonempty, resolvable) `current_node` id whose
parent chain forms the root-to-current path `p` — the network adapter's
extraction returns exactly the rendered messages of the nodes on `p`, in
root-to-current (chronological) order; nodes on sibling or abandoned
branches contribute nothing. -/
theorem extract_follows_root_path :
    ∀ (mapping : List (String × PageContext.CgptNode)) (ccn : Option String)
      (current : String) (p : List String),
      current ≠ "" →
      PageContext.IsRootToCurrentPath mapping current p →
      PageContext.extractChatGPTConversationMessages ⟨some mapping, some current, ccn⟩ =
        p.filterMap
          (fun id => (PageContext.lookupNode mapping id).bind PageContext.renderNode) := by
  intro mapping ccn current p hcur hpath
  obtain ⟨hne, hlast, hchain, hroot, hmem, hnodup, hlen⟩ := hpath
  have hcurmem : current ∈ p := List.mem_of_mem_getLast? hlast
  have hcs := hmem current hcurmem
  have hhead : p.reverse.head? = some current := by
    rw [List.head?_reverse]
    exact hlast
  have hwalk : PageContext.chainGo mapping [] (some current) = [] ++ p.reverse := by
    apply chainGo_spec mapping p.reverse [] current hhead
    · rw [List.chain'_reverse]
      exact hchain
    · intro z hz
      rw [List.getLast?_reverse] at hz
      have hz' : z = p.headI := by
        cases p with
        | nil => exact absurd rfl hne
        | cons a t =>
          simp at hz
          simp [hz]
      rw [hz']
      exact hroot
    · intro x hx
      exact hmem x (by simpa using hx)
    · intro x _
      simp
    · exact List.nodup_reverse.mpr hnodup
    · simp
      omega
  have hguard : current ≠ "" ∧ (PageContext.lookupNode mapping current).isSome = true :=
    ⟨hcur, hcs.2⟩
  unfold PageContext.extractChatGPTConversationMessages
  simp only []
  rw [if_pos hcur, if_pos hguard, hwalk]
  simp only [List.nil_append, List.reverse_reverse]
  rw [if_pos hne]

/-- C1 witness: a branched graph — root `A` with two children `B` and `C`
(siblings), `current_node = C`.  The extraction returns exactly the
messages of `A` and `C` in order; the sibling `B`'s message renders fine on
its own but is absent from the result. -/
theorem extract_follows_root_path_witness :
    PageContext.extractChatGPTConversationMessages
        ⟨some PageContext.convCexMapping, some "C", none⟩ =
      [⟨"user", "hi", some 1⟩, ⟨"assistant", "branch c", some 3⟩] ∧
    PageContext.renderNode
        ⟨some "A", some ⟨some "assistant", some ⟨none, some [.str "branch b"]⟩, none, some 2⟩⟩ =
      some ⟨"assistant", "branch b", some 2⟩ ∧
    (⟨"assistant", "branch b", some 2⟩ : PageContext.ExtractedMsg) ∉
      PageContext.extractChatGPTConversationMessages
        ⟨some PageContext.convCexMapping, some "C", none⟩ := by
  have hpath : PageContext.IsRootToCurrentPath PageContext.convCexMapping "C" ["A", "C"] := by
    unfold PageContext.IsRootToCurrentPath
    refine ⟨by decide, by decide, List.chain'_pair.mpr (by decide),
      by decide, by decide, by decide, by decide⟩
  have h := extract_follows_root_path PageContext.convCexMapping
    none "C" ["A", "C"] (by decide) hpath
  have h2 : List.filterMap
      (fun id => (PageContext.lookupNode PageContext.convCexMapping id).bind
        PageContext.renderNode) ["A", "C"] =
      [⟨"user", "hi", some 1⟩, ⟨"assistant", "branch c", some 3⟩] := by decide
  refine ⟨h.trans h2, by decide, ?_⟩
  rw [h.trans h2]
  decide

/-- With the transcript flag already forced off, no path of `generate`
(partial, digest or ultra) emits a `transcript_compact` field. -/
theorem generate_flag_false_no_transcript :
    ∀ (env : Gen.ExtractorEnv) (clock : Nat → Bool) (msgs : List ContentJs.StoredMsg)
      (budget : Gen.Budget) (om : String) (sealFlag : Bool),
      (Gen.generate env clock msgs budget ⟨some false, om, sealFlag⟩).transcript_compact = none := by
  intro env clock msgs budget om sealFlag
  unfold Gen.generate
  split_ifs <;>
    simp_all [Gen.generatePartialSnapshot, Gen.buildUltraSnapshot]

/-- C2: a snapshot job run in `ultra` or `ultra_plus` mode never produces a
`transcript_compact` field, and a job whose captured messages exceed 1500
entries or 1 200 000 aggregate content characters omits the transcript as
well — regardless of the requested `includeTranscript` option. -/
theorem ultra_and_digest_threshold_omit_transcript :
    ∀ (env : Gen.ExtractorEnv) (clock : Nat → Bool) (options : Gen.GenOptions)
      (api dom : List ContentJs.StoredMsg),
      (options.outputMode = "ultra" ∨ options.outputMode = "ultra_plus" →
        (Gen.runSnapshotJobSnapshot env clock options api dom).transcript_compact = none) ∧
      ((Background.pickBestMessages api dom).length > 1500 ∨
          ((Background.pickBestMessages api dom).map (fun m => m.content.data.length)).sum
            > 1200000 →
        (Gen.runSnapshotJobSnapshot env clock options api dom).transcript_compact = none) := by
  intro env clock options api dom
  have hg := generate_flag_false_no_transcript env clock
    (Background.pickBestMessages api dom) Gen.defaultBudget options.outputMode
    options.wantsIntegritySeal
  constructor
  · intro hmode
    simp only [Gen.runSnapshotJobSnapshot]
    rw [if_pos hmode, ite_self]
    by_cases hseal : options.wantsIntegritySeal
    · rw [if_pos hseal]
      exact hg
    · rw [if_neg hseal]
      exact hg
  · intro hthresh
    simp only [Gen.runSnapshotJobSnapshot]
    rw [if_pos hthresh]
    by_cases hseal : options.wantsIntegritySeal
    · rw [if_pos hseal]
      exact hg
    · rw [if_neg hseal]
      exact hg

/-- C2 witness: at concrete inputs — an `ultra` job with
`includeTranscript: true`, and a `digest` job with `includeTranscript: true`
over 1501 captured messages — the artifact has no `transcript_compact`. -/
theorem ultra_and_digest_threshold_omit_transcript_witness :
    (Gen.runSnapshotJobSnapshot Gen.trivialEnv (fun _ => false)
        ⟨some true, "ultra", false⟩ [] []).transcript_compact = none ∧
    (Gen.runSnapshotJobSnapshot Gen.trivialEnv (fun _ => false)
        ⟨some true, "digest", false⟩
        (List.replicate 1501 ⟨"msg-1", "user", "x", "t", "s", 0⟩)
        []).transcript_compact = none :=
  ⟨(ultra_and_digest_threshold_omit_transcript Gen.trivialEnv (fun _ => false)
      ⟨some true, "ultra", false⟩ [] []).1 (Or.inl rfl),
   (ultra_and_digest_threshold_omit_transcript Gen.trivialEnv (fun _ => false)
      ⟨some true, "digest", false⟩
      (List.replicate 1501 ⟨"msg-1", "user", "x", "t", "s", 0⟩) []).2
     (Or.inl (by decide))⟩

/-- C5: if the generation deadline is not yet exceeded at the initial check
but is exceeded right after topic extraction, `generate` returns a partial
snapshot: `partial:true`, `partial_reason:"deadline_exceeded"`, the
completed topic stage, and empty `decisions` and `insights` arrays. -/
theorem deadline_after_topics_partial :
    ∀ (env : Gen.ExtractorEnv) (clock : Nat → Bool) (msgs : List ContentJs.StoredMsg)
      (budget : Gen.Budget) (opts : Gen.GenOptions),
      clock 0 = false → clock 1 = true →
      (Gen.generate env clock msgs budget opts).partial_flag = some true ∧
      (Gen.generate env clock msgs budget opts).partial_reason = some "deadline_exceeded" ∧
      (Gen.generate env clock msgs budget opts).topics =
        (env.extractTopics msgs).take budget.maxTopics ∧
      (Gen.generate env clock msgs budget opts).decisions = some [] ∧
      (Gen.generate env clock msgs budget opts).insights = some [] := by
  intro env clock msgs budget opts h0 h1
  simp only [Gen.generate, h0, h1]
  simp [Gen.generatePartialSnapshot]

/-- C5 witness: with a deadline oracle that trips from the second check on,
the concrete generated snapshot is partial with the stated fields. -/
theorem deadline_after_topics_partial_witness :
    (Gen.generate Gen.trivialEnv (fun n => n != 0) [] Gen.defaultBudget
        ⟨some true, "digest", false⟩).partial_flag = some true ∧
    (Gen.generate Gen.trivialEnv (fun n => n != 0) [] Gen.defaultBudget
        ⟨some true, "digest", false⟩).partial_reason = some "deadline_exceeded" ∧
    (Gen.generate Gen.trivialEnv (fun n => n != 0) [] Gen.defaultBudget
        ⟨some true, "digest", false⟩).topics = [] ∧
    (Gen.generate Gen.trivialEnv (fun n => n != 0) [] Gen.defaultBudget
        ⟨some true, "digest", false⟩).decisions = some [] ∧
    (Gen.generate Gen.trivialEnv (fun n => n != 0) [] Gen.defaultBudget
        ⟨some true, "digest", false⟩).insights = some [] := by
  have h := deadline_after_topics_partial Gen.trivialEnv (fun n => n != 0) []
    Gen.defaultBudget ⟨some true, "digest", false⟩ (by decide) (by decide)
  exact ⟨h.1, h.2.1, h.2.2.1.trans (by decide), h.2.2.2.1, h.2.2.2.2⟩

/-- C10: a partial snapshot always embeds the full raw message list
verbatim — one entry per input message, each rewritten to the chosen
session id — whatever the reason and the completed stages, and however
large the input. -/
theorem partial_snapshot_embeds_messages :
    ∀ (env : Gen.ExtractorEnv) (msgs : List ContentJs.StoredMsg) (reason : String)
      (pd : Gen.PartialData),
      (Gen.generatePartialSnapshot env msgs reason pd).messages =
        some (msgs.map (fun m =>
          { m with session_id := Gen.pickSessionId env msgs env.nowIso })) ∧
      ((Gen.generatePartialSnapshot env msgs reason pd).messages.getD []).length =
        msgs.length := by
  intro env msgs reason pd
  constructor
  · rfl
  · simp [Gen.generatePartialSnapshot]

/-- C9 (the code violates the documented cap): on a message holding ten
short goal-statement sentences followed by one marker-phrase sentence,
`extractInsights` returns 11 insights — the heuristic fills the list to 10
and the subsequent marker push lands before the cap check, exceeding the
"MAX 10" its own comment and the spec promise. -/
theorem extractInsights_cap_exceeded :
    (Extraction.extractInsights
      [⟨"msg-1", "user", Extraction.insightCapCexContent, "t", "s", 0⟩]).length = 11 := by
  decide
